import Mathlib

/-!
Shallow embedding of the expense-approval engine of
`app/services/approval_service.py` together with the data model of
`app/models/models.py`.

Modelling conventions:
* Python floats (amounts, percentages) are modelled as rationals.
* Nullable columns are `Option`.
* The SQL three-valued logic of the rule-selection query is explicit: a
  NULL bound makes the comparison non-TRUE, which excludes the row.
* A Python runtime exception (comparing a float with `None` in the
  percentage branch) is modelled by `Option.none` in the result type.
* The SQLAlchemy identity map is respected: after `approval.status` is
  mutated, the subsequent query for all approvals of the expense returns
  the mutated row, so the model first updates the approval list and then
  filters it.
* Timestamps (`approved_at`, `created_at`, `updated_at`) are external
  real-time data and are not modelled; no claim mentions them.
-/

inductive ExpenseStatus
  | pending
  | approved
  | rejected
deriving DecidableEq, Repr

inductive ApprovalRuleType
  | percentage
  | specific_approver
  | hybrid
deriving DecidableEq, Repr

/-- A user row: only the fields read by the approval service. -/
structure User where
  id : Nat
  manager_id : Option Nat
  company_id : Nat
deriving DecidableEq, Repr

/-- An expense row: only the fields read or written by the approval service. -/
structure Expense where
  id : Nat
  status : ExpenseStatus
  amount_in_company_currency : ℚ
  employee_id : Nat
  company_id : Nat
deriving DecidableEq, Repr

/-- An approval workflow step.  `approver_id` is `Option` because the code
assigns `rule.specific_approver_id` (a nullable column) to it unchecked. -/
structure Approval where
  id : Nat
  expense_id : Nat
  approver_id : Option Nat
  status : ExpenseStatus
  sequence : Nat
  comments : Option String
deriving DecidableEq, Repr

/-- One entry of `ApprovalRule.rule_approvers` (table `approval_rule_approvers`). -/
structure RuleApprover where
  approver_id : Nat
  sequence : Nat
deriving DecidableEq, Repr

structure ApprovalRule where
  id : Nat
  rule_type : ApprovalRuleType
  min_amount : Option ℚ
  max_amount : Option ℚ
  percentage_required : Option ℚ
  specific_approver_id : Option Nat
  is_active : Bool
  company_id : Nat
  rule_approvers : List RuleApprover
deriving DecidableEq, Repr

/-- The rule-selection filter shared by `create_approval_workflow` and
`_check_approval_completion`: company match, `is_active`, and
`min_amount <= amount <= max_amount` under SQL semantics, where a
comparison against a NULL bound is not TRUE and excludes the row. -/
def rule_applies (r : ApprovalRule) (e : Expense) : Bool :=
  r.company_id == e.company_id && r.is_active &&
    (match r.min_amount with
      | none => false
      | some m => decide (m ≤ e.amount_in_company_currency)) &&
    (match r.max_amount with
      | none => false
      | some m => decide (e.amount_in_company_currency ≤ m))

/-- The result of the `db.query(ApprovalRule).filter(...)` call. -/
def applicable_rules (rules : List ApprovalRule) (e : Expense) : List ApprovalRule :=
  rules.filter (fun r => rule_applies r e)

/-- A freshly constructed Pending approval row. -/
def pending_approval (aid eid : Nat) (approver : Option Nat) (seq : Nat) : Approval :=
  { id := aid, expense_id := eid, approver_id := approver,
    status := ExpenseStatus.pending, sequence := seq, comments := none }

/-- The `for rule_approver in rule.rule_approvers` loop of the PERCENTAGE
branch of `create_approval_workflow`: one Pending approval per listed
approver, all with the same sequence number. -/
def percentage_rule_approvals (ras : List RuleApprover) (eid seq nid : Nat) : List Approval :=
  match ras with
  | [] => []
  | ra :: rest =>
      pending_approval nid eid (some ra.approver_id) seq ::
        percentage_rule_approvals rest eid (seq) (nid + 1)

/-- The `for rule in rules` loop of `create_approval_workflow`.  The Python
`if`/`elif` chain handles only SPECIFIC_APPROVER and PERCENTAGE; a HYBRID
rule matches no branch and contributes nothing (and does not advance the
sequence counter). -/
def apply_rules (rs : List ApprovalRule) (eid seq nid : Nat) : List Approval :=
  match rs with
  | [] => []
  | r :: rest =>
    match r.rule_type with
    | ApprovalRuleType.specific_approver =>
        pending_approval nid eid r.specific_approver_id seq ::
          apply_rules rest eid (seq + 1) (nid + 1)
    | ApprovalRuleType.percentage =>
        percentage_rule_approvals r.rule_approvers eid seq nid ++
          apply_rules rest eid (seq + 1) (nid + r.rule_approvers.length)
    | ApprovalRuleType.hybrid => apply_rules rest eid seq nid

/-- `ApprovalService.create_approval_workflow`.  `nid` supplies the next
fresh primary key for new approval rows. -/
def create_approval_workflow (rules : List ApprovalRule) (users : List User)
    (e : Expense) (nid : Nat) : List Approval :=
  let rs := applicable_rules rules e
  if rs.isEmpty then
    match users.find? (fun u => u.id == e.employee_id) with
    | some emp =>
      match emp.manager_id with
      | some m => [pending_approval nid e.id (some m) 1]
      | none => []
    | none => []
  else
    apply_rules rs e.id 1 nid

/-- Approval rows whose approver appears among `rule.rule_approvers`
(the `rule_approvals` list comprehension of the completion check). -/
def matching_rule_approvals (r : ApprovalRule) (approvals : List Approval) : List Approval :=
  approvals.filter (fun a => r.rule_approvers.any (fun ra => some ra.approver_id == a.approver_id))

/-- The `approved_count` sum of the completion check. -/
def approved_count (l : List Approval) : Nat :=
  (l.filter (fun a => a.status == ExpenseStatus.approved)).length

/-- The SPECIFIC_APPROVER condition: the first approval row whose approver
equals `rule.specific_approver_id` exists and is Approved. -/
def specific_approver_satisfied (r : ApprovalRule) (approvals : List Approval) : Bool :=
  match approvals.find? (fun a => a.approver_id == r.specific_approver_id) with
  | some a => a.status == ExpenseStatus.approved
  | none => false

/-- The PERCENTAGE branch of `_check_approval_completion`.  Returns `none`
when Python would raise: the branch compares the computed percentage with
`rule.percentage_required` without checking it for `None`. -/
def percentage_satisfied (r : ApprovalRule) (approvals : List Approval) : Option Bool :=
  let ra := matching_rule_approvals r approvals
  if ra.isEmpty then some false
  else
    match r.percentage_required with
    | none => none
    | some p =>
        some (decide (p ≤ ((approved_count ra : ℚ) / (ra.length : ℚ)) * 100))

/-- The specific-approver half of the HYBRID branch, guarded by the Python
truthiness test `if rule.specific_approver_id:` (both `None` and `0` are
falsy). -/
def hybrid_specific_approved (r : ApprovalRule) (approvals : List Approval) : Bool :=
  match r.specific_approver_id with
  | none => false
  | some sid =>
      if sid == 0 then false
      else specific_approver_satisfied r approvals

/-- The percentage half of the HYBRID branch, guarded by the Python
truthiness test `if rule.percentage_required:` (both `None` and `0` are
falsy), then by `if rule_approvals:`. -/
def hybrid_percentage_approved (r : ApprovalRule) (approvals : List Approval) : Bool :=
  match r.percentage_required with
  | none => false
  | some p =>
      if p == 0 then false
      else
        let ra := matching_rule_approvals r approvals
        if ra.isEmpty then false
        else decide (p ≤ ((approved_count ra : ℚ) / (ra.length : ℚ)) * 100)

/-- The `for rule in rules` loop of `_check_approval_completion`: the first
satisfied rule returns True; falling off the loop returns False; a raised
exception propagates as `none`. -/
def check_completion_rules (rs : List ApprovalRule) (approvals : List Approval) : Option Bool :=
  match rs with
  | [] => some false
  | r :: rest =>
    match r.rule_type with
    | ApprovalRuleType.specific_approver =>
        if specific_approver_satisfied r approvals then some true
        else check_completion_rules rest approvals
    | ApprovalRuleType.percentage =>
        match percentage_satisfied r approvals with
        | none => none
        | some true => some true
        | some false => check_completion_rules rest approvals
    | ApprovalRuleType.hybrid =>
        if hybrid_specific_approved r approvals || hybrid_percentage_approved r approvals
        then some true
        else check_completion_rules rest approvals

/-- `ApprovalService._check_approval_completion`. -/
def check_approval_completion (rules : List ApprovalRule) (e : Expense)
    (approvals : List Approval) : Option Bool :=
  let rs := applicable_rules rules e
  if rs.isEmpty then
    some (approvals.all (fun a => a.status == ExpenseStatus.approved))
  else check_completion_rules rs approvals

/-- Specification-side formula for the Percentage condition, written from
the spec sentence: among approval rows whose approver appears in
`rule.rule_approvers`, `approved_count / total_count * 100` must be at
least `rule.percentage_required`.  Used only to compare the code's
`percentage_satisfied` against the spec's wording. -/
def spec_percentage_formula (r : ApprovalRule) (approvals : List Approval) (p : ℚ) : Prop :=
  ((approved_count (matching_rule_approvals r approvals) : ℚ) /
    ((matching_rule_approvals r approvals).length : ℚ)) * 100 ≥ p

/-- The whole persistent state visible to the service. -/
structure DBState where
  rules : List ApprovalRule
  users : List User
  expenses : List Expense
  approvals : List Approval
deriving DecidableEq, Repr

/-- Mutation of the single ORM object returned by `.first()`: replace the
first element satisfying `p`, leave everything else in place. -/
def update_first {α : Type} (p : α → Bool) (f : α → α) : List α → List α
  | [] => []
  | a :: rest => if p a then f a :: rest else a :: update_first p f rest

/-- The filter of the `process_approval` lookup query: primary key, acting
user, and Pending status. -/
def approval_query (approval_id approver_id : Nat) (a : Approval) : Bool :=
  a.id == approval_id && a.approver_id == some approver_id &&
    a.status == ExpenseStatus.pending

/-- Lookup of an expense by primary key. -/
def expense_query (eid : Nat) (e : Expense) : Bool :=
  e.id == eid

/-- `APPROVED if action == "approve" else REJECTED`. -/
def resolved_status (action : String) : ExpenseStatus :=
  if action == "approve" then ExpenseStatus.approved else ExpenseStatus.rejected

/-- The in-place mutation of the found approval row. -/
def resolve_approval (action : String) (c : Option String) (a : Approval) : Approval :=
  { a with status := resolved_status action, comments := c }

def set_expense_status (st : ExpenseStatus) (e : Expense) : Expense :=
  { e with status := st }

/-- `ApprovalService.process_approval`.  Returns `some (flag, state)` for a
normal return of `flag` with the resulting committed state, `none` for a
raised exception (which aborts before `db.commit()`).  The early
`return False` paths leave the persistent state unchanged because nothing
was committed. -/
def process_approval (s : DBState) (approval_id approver_id : Nat)
    (action : String) (comments : Option String) : Option (Bool × DBState) :=
  match s.approvals.find? (approval_query approval_id approver_id) with
  | none => some (false, s)
  | some approval =>
    let approvals1 := update_first (approval_query approval_id approver_id)
        (resolve_approval action comments) s.approvals
    match s.expenses.find? (expense_query approval.expense_id) with
    | none => some (false, s)
    | some expense =>
      if action == "reject" then
        some (true,
          { s with
            approvals := approvals1
            expenses := update_first (expense_query approval.expense_id)
              (set_expense_status ExpenseStatus.rejected) s.expenses })
      else
        match check_approval_completion s.rules expense
            (approvals1.filter (fun a => a.expense_id == expense.id)) with
        | none => none
        | some true =>
            some (true,
              { s with
                approvals := approvals1
                expenses := update_first (expense_query approval.expense_id)
                  (set_expense_status ExpenseStatus.approved) s.expenses })
        | some false => some (true, { s with approvals := approvals1 })

/-! Concrete company data used by counterexamples and witnesses. -/

/-- A pending expense of 50 (company currency) submitted by user 2 of company 1. -/
def expense_c1 : Expense :=
  { id := 1, status := ExpenseStatus.pending, amount_in_company_currency := 50,
    employee_id := 2, company_id := 1 }

/-- An active Hybrid rule of company 1 applying to amounts 0..100, with a
specific approver and one listed rule approver. -/
def hybrid_rule_c1 : ApprovalRule :=
  { id := 1, rule_type := ApprovalRuleType.hybrid, min_amount := some 0,
    max_amount := some 100, percentage_required := some 50,
    specific_approver_id := some 5, is_active := true, company_id := 1,
    rule_approvers := [{ approver_id := 7, sequence := 1 }] }

/-- The same rule with type Percentage instead of Hybrid. -/
def percentage_twin_c1 : ApprovalRule :=
  { hybrid_rule_c1 with rule_type := ApprovalRuleType.percentage }

/-- An already Approved expense. -/
def expense_c2 : Expense :=
  { id := 1, status := ExpenseStatus.approved, amount_in_company_currency := 50,
    employee_id := 2, company_id := 1 }

/-- A still Pending approval row of that expense, owned by user 9. -/
def approval_c2 : Approval :=
  { id := 1, expense_id := 1, approver_id := some 9,
    status := ExpenseStatus.pending, sequence := 1, comments := none }

def state_c2 : DBState :=
  { rules := [], users := [], expenses := [expense_c2], approvals := [approval_c2] }

/-- The same state after the approval row has been resolved. -/
def state_c2w : DBState :=
  { rules := [], users := [], expenses := [expense_c2],
    approvals := [{ approval_c2 with status := ExpenseStatus.approved }] }

/-- An active rule of company 1 with an unset lower bound. -/
def rule_c3 : ApprovalRule :=
  { id := 3, rule_type := ApprovalRuleType.percentage, min_amount := none,
    max_amount := some 100, percentage_required := some 50,
    specific_approver_id := none, is_active := true, company_id := 1,
    rule_approvers := [{ approver_id := 7, sequence := 1 }] }

/-- A Pending expense used by the success-path witnesses. -/
def expense_c4 : Expense :=
  { id := 1, status := ExpenseStatus.pending, amount_in_company_currency := 50,
    employee_id := 2, company_id := 1 }

/-- First-sequence Pending approval row of the witness expense, owned by user 9. -/
def approval_c4a : Approval :=
  { id := 1, expense_id := 1, approver_id := some 9,
    status := ExpenseStatus.pending, sequence := 1, comments := none }

/-- Second-sequence Pending approval row of the witness expense, owned by user 8. -/
def approval_c4b : Approval :=
  { id := 2, expense_id := 1, approver_id := some 8,
    status := ExpenseStatus.pending, sequence := 2, comments := none }

def state_c4 : DBState :=
  { rules := [], users := [], expenses := [expense_c4],
    approvals := [approval_c4a, approval_c4b] }

/-- A Percentage rule requiring 60 percent of five listed approvers 11..15. -/
def rule_c6 : ApprovalRule :=
  { id := 6, rule_type := ApprovalRuleType.percentage, min_amount := some 0,
    max_amount := some 100, percentage_required := some 60,
    specific_approver_id := none, is_active := true, company_id := 1,
    rule_approvers :=
      [{ approver_id := 11, sequence := 1 }, { approver_id := 12, sequence := 2 },
       { approver_id := 13, sequence := 3 }, { approver_id := 14, sequence := 4 },
       { approver_id := 15, sequence := 5 }] }

/-- One approval row per listed approver of `rule_c6`; the i-th row belongs
to approver 10 + i. -/
def approval_row_c6 (i : Nat) (st : ExpenseStatus) : Approval :=
  { id := i, expense_id := 1, approver_id := some (10 + i), status := st,
    sequence := 1, comments := none }

/-- Two of five approvers have approved. -/
def approvals_c6_two : List Approval :=
  [approval_row_c6 1 ExpenseStatus.approved, approval_row_c6 2 ExpenseStatus.approved,
   approval_row_c6 3 ExpenseStatus.pending, approval_row_c6 4 ExpenseStatus.pending,
   approval_row_c6 5 ExpenseStatus.pending]

/-- Three of five approvers have approved. -/
def approvals_c6_three : List Approval :=
  [approval_row_c6 1 ExpenseStatus.approved, approval_row_c6 2 ExpenseStatus.approved,
   approval_row_c6 3 ExpenseStatus.approved, approval_row_c6 4 ExpenseStatus.pending,
   approval_row_c6 5 ExpenseStatus.pending]

/-- The submitter of `expense_c1`, who has no manager. -/
def user_c7 : User := { id := 2, manager_id := none, company_id := 1 }

/-- An applicable Percentage rule with a positive threshold and one listed
approver, for the amended round-trip witness. -/
def rule_c7 : ApprovalRule :=
  { id := 7, rule_type := ApprovalRuleType.percentage, min_amount := some 0,
    max_amount := some 100, percentage_required := some 60,
    specific_approver_id := none, is_active := true, company_id := 1,
    rule_approvers := [{ approver_id := 7, sequence := 1 }] }

/-- A Percentage rule whose only listed approver (21) has no approval row. -/
def rule_c8 : ApprovalRule :=
  { id := 8, rule_type := ApprovalRuleType.percentage, min_amount := some 0,
    max_amount := some 100, percentage_required := some 50,
    specific_approver_id := none, is_active := true, company_id := 1,
    rule_approvers := [{ approver_id := 21, sequence := 1 }] }

/-- An approval list whose single row belongs to approver 22, who is not
listed by `rule_c8`. -/
def approvals_c8 : List Approval :=
  [{ id := 1, expense_id := 1, approver_id := some 22,
     status := ExpenseStatus.approved, sequence := 1, comments := none }]

/-- An inactive-window rule: applies only to amounts 100..200, so not to
the amount 50 of `expense_c1`. -/
def rule_c10 : ApprovalRule :=
  { id := 10, rule_type := ApprovalRuleType.percentage, min_amount := some 100,
    max_amount := some 200, percentage_required := some 50,
    specific_approver_id := none, is_active := true, company_id := 1,
    rule_approvers := [{ approver_id := 7, sequence := 1 }] }

/-- The state after user 9 approves the first approval row of `state_c4`:
that row is Approved, the second row and the expense are untouched (the
default completion rule needs every row Approved, and one is Pending). -/
def state_c5post : DBState :=
  { rules := [], users := [], expenses := [expense_c4],
    approvals := [{ approval_c4a with status := ExpenseStatus.approved },
      approval_c4b] }

/-! Shared list lemmas about the mutation helper `update_first`. -/

theorem update_first_mem {α : Type} (p : α → Bool) (f : α → α) (l : List α) (x : α)
    (hx : x ∈ update_first p f l) : x ∈ l ∨ ∃ y, y ∈ l ∧ p y = true ∧ x = f y := by
  induction l with
  | nil => simp [update_first] at hx
  | cons a rest ih =>
    by_cases h : p a
    · have hx' : x = f a ∨ x ∈ rest := by simpa [update_first, h] using hx
      rcases hx' with rfl | hx'
      · exact Or.inr ⟨a, List.mem_cons_self a rest, h, rfl⟩
      · exact Or.inl (List.mem_cons_of_mem a hx')
    · have hfalse : p a = false := by simpa using h
      have hx' : x = a ∨ x ∈ update_first p f rest := by
        simpa [update_first, hfalse] using hx
      rcases hx' with rfl | hx'
      · exact Or.inl (List.mem_cons_self x rest)
      · rcases ih hx' with h1 | ⟨y, hy, hpy, hxy⟩
        · exact Or.inl (List.mem_cons_of_mem a h1)
        · exact Or.inr ⟨y, List.mem_cons_of_mem a hy, hpy, hxy⟩

theorem mem_update_first_of_not {α : Type} (p : α → Bool) (f : α → α) (l : List α) (x : α)
    (hx : x ∈ l) (hp : p x = false) : x ∈ update_first p f l := by
  induction l with
  | nil => simp at hx
  | cons a rest ih =>
    rcases List.mem_cons.mp hx with rfl | hx
    · simp [update_first, hp]
    · by_cases h : p a
      · simp only [update_first, h, if_true, List.mem_cons]
        exact Or.inr hx
      · have hfalse : p a = false := by simpa using h
        simp only [update_first, hfalse, Bool.false_eq_true, if_false, List.mem_cons]
        exact Or.inr (ih hx)

theorem find?_update_first {α : Type} (p : α → Bool) (f : α → α) (l : List α) (a : α)
    (h : l.find? p = some a) (hf : p (f a) = true) :
    (update_first p f l).find? p = some (f a) := by
  induction l with
  | nil => simp [List.find?] at h
  | cons b rest ih =>
    by_cases hb : p b
    · have hba : b = a := by
        have := h
        rw [List.find?_cons_of_pos _ hb] at this
        exact Option.some.inj this
      subst hba
      simp [update_first, hb, List.find?_cons_of_pos _ hf]
    · have h' : rest.find? p = some a := by
        have := h
        rwa [List.find?_cons_of_neg _ (by simpa using hb)] at this
      simp [update_first, hb, List.find?_cons_of_neg _ (by simpa using hb), ih h']

theorem resolved_mem_update_first {α : Type} (p : α → Bool) (f : α → α) (l : List α) (a : α)
    (h : l.find? p = some a) : f a ∈ update_first p f l := by
  induction l with
  | nil => simp [List.find?] at h
  | cons b rest ih =>
    by_cases hb : p b
    · have hba : b = a := by
        have := h
        rw [List.find?_cons_of_pos _ hb] at this
        exact Option.some.inj this
      subst hba
      simp [update_first, hb]
    · have h' : rest.find? p = some a := by
        have := h
        rwa [List.find?_cons_of_neg _ (by simpa using hb)] at this
      simp [update_first, hb, List.mem_cons, ih h']

/-! Lemmas about the lookup predicates and the status fields. -/

theorem approval_query_iff (aid uid : Nat) (a : Approval) :
    approval_query aid uid a = true ↔
      a.id = aid ∧ a.approver_id = some uid ∧ a.status = ExpenseStatus.pending := by
  simp [approval_query, Bool.and_eq_true, beq_iff_eq, and_assoc]

theorem resolved_status_ne_pending (action : String) :
    resolved_status action ≠ ExpenseStatus.pending := by
  unfold resolved_status
  split <;> simp

theorem percentage_rule_approvals_status (ras : List RuleApprover) (eid seq nid : Nat) :
    ∀ a ∈ percentage_rule_approvals ras eid seq nid, a.status = ExpenseStatus.pending := by
  induction ras generalizing nid with
  | nil => simp [percentage_rule_approvals]
  | cons ra rest ih =>
    intro a ha
    rcases List.mem_cons.mp ha with rfl | ha
    · rfl
    · exact ih (nid + 1) a ha

theorem apply_rules_status (rs : List ApprovalRule) (eid : Nat) :
    ∀ seq nid, ∀ a ∈ apply_rules rs eid seq nid, a.status = ExpenseStatus.pending := by
  induction rs with
  | nil => intro seq nid a ha; simp [apply_rules] at ha
  | cons r rest ih =>
    intro seq nid a ha
    unfold apply_rules at ha
    cases hty : r.rule_type with
    | specific_approver =>
      rw [hty] at ha
      rcases List.mem_cons.mp ha with rfl | ha
      · rfl
      · exact ih _ _ a ha
    | percentage =>
      rw [hty] at ha
      rcases List.mem_append.mp ha with ha | ha
      · exact percentage_rule_approvals_status _ _ _ _ a ha
      · exact ih _ _ a ha
    | hybrid =>
      rw [hty] at ha
      exact ih _ _ a ha

theorem create_workflow_status (rules : List ApprovalRule) (users : List User)
    (e : Expense) (nid : Nat) :
    ∀ a ∈ create_approval_workflow rules users e nid, a.status = ExpenseStatus.pending := by
  intro a ha
  simp only [create_approval_workflow] at ha
  by_cases hr : (applicable_rules rules e).isEmpty
  · rw [if_pos hr] at ha
    cases hu : users.find? (fun u => u.id == e.employee_id) with
    | none => simp only [hu] at ha; simp at ha
    | some emp =>
      simp only [hu] at ha
      cases hm : emp.manager_id with
      | none => simp only [hm] at ha; simp at ha
      | some m =>
        simp only [hm] at ha
        have hae : a = pending_approval nid e.id (some m) 1 := List.mem_singleton.mp ha
        rw [hae]; rfl
  · rw [if_neg hr] at ha
    exact apply_rules_status _ _ _ _ a ha

/-! Lemmas about the completion check over all-Pending approval lists. -/

theorem approved_count_eq_zero (l : List Approval)
    (h : ∀ a ∈ l, a.status = ExpenseStatus.pending) : approved_count l = 0 := by
  unfold approved_count
  rw [List.length_eq_zero, List.filter_eq_nil_iff]
  intro a ha
  simp [h a ha]

theorem specific_not_satisfied (r : ApprovalRule) (approvals : List Approval)
    (h : ∀ a ∈ approvals, a.status = ExpenseStatus.pending) :
    specific_approver_satisfied r approvals = false := by
  unfold specific_approver_satisfied
  cases hf : approvals.find? (fun a => a.approver_id == r.specific_approver_id) with
  | none => rfl
  | some a =>
    have hs := h a (List.mem_of_find?_eq_some hf)
    simp [hs]

theorem matching_status (r : ApprovalRule) (approvals : List Approval)
    (h : ∀ a ∈ approvals, a.status = ExpenseStatus.pending) :
    ∀ a ∈ matching_rule_approvals r approvals, a.status = ExpenseStatus.pending :=
  fun a ha => h a (List.mem_of_mem_filter ha)

theorem pending_ratio_lt (p : ℚ) (l : List Approval) (hp : 0 < p)
    (h : ∀ a ∈ l, a.status = ExpenseStatus.pending) :
    decide (p ≤ ((approved_count l : ℚ) / (l.length : ℚ)) * 100) = false := by
  rw [approved_count_eq_zero l h]
  simp [hp, not_le]

theorem percentage_not_satisfied_pending (r : ApprovalRule) (approvals : List Approval)
    (p : ℚ) (hp : r.percentage_required = some p) (hpos : 0 < p)
    (h : ∀ a ∈ approvals, a.status = ExpenseStatus.pending) :
    percentage_satisfied r approvals = some false := by
  unfold percentage_satisfied
  by_cases he : (matching_rule_approvals r approvals).isEmpty
  · simp [he]
  · simp only [he, Bool.false_eq_true, if_false, hp]
    rw [pending_ratio_lt p _ hpos (matching_status r approvals h)]

theorem hybrid_specific_not_approved (r : ApprovalRule) (approvals : List Approval)
    (h : ∀ a ∈ approvals, a.status = ExpenseStatus.pending) :
    hybrid_specific_approved r approvals = false := by
  unfold hybrid_specific_approved
  cases r.specific_approver_id with
  | none => rfl
  | some sid =>
    by_cases hz : sid == 0
    · simp [hz]
    · simp only [hz, Bool.false_eq_true, if_false]
      exact specific_not_satisfied r approvals h

theorem hybrid_percentage_not_approved (r : ApprovalRule) (approvals : List Approval)
    (hq : ∀ p, r.percentage_required = some p → 0 ≤ p)
    (h : ∀ a ∈ approvals, a.status = ExpenseStatus.pending) :
    hybrid_percentage_approved r approvals = false := by
  unfold hybrid_percentage_approved
  cases hpr : r.percentage_required with
  | none => rfl
  | some p =>
    by_cases hz : p == 0
    · simp [hz]
    · have hpos : 0 < p := by
        rcases lt_or_eq_of_le (hq p hpr) with hlt | heq
        · exact hlt
        · exact absurd heq.symm (by simpa using hz)
      simp only [hz, Bool.false_eq_true, if_false]
      by_cases he : (matching_rule_approvals r approvals).isEmpty
      · simp [he]
      · simp only [he, Bool.false_eq_true, if_false]
        exact pending_ratio_lt p _ hpos (matching_status r approvals h)

theorem check_rules_pending (rs : List ApprovalRule) (approvals : List Approval)
    (h : ∀ a ∈ approvals, a.status = ExpenseStatus.pending)
    (hperc : ∀ r ∈ rs, r.rule_type = ApprovalRuleType.percentage →
        ∃ p, r.percentage_required = some p ∧ 0 < p)
    (hhyb : ∀ r ∈ rs, r.rule_type = ApprovalRuleType.hybrid →
        ∀ p, r.percentage_required = some p → 0 ≤ p) :
    check_completion_rules rs approvals = some false := by
  induction rs with
  | nil => rfl
  | cons r rest ih =>
    have ih' := ih (fun x hx hty => hperc x (List.mem_cons_of_mem r hx) hty)
      (fun x hx hty => hhyb x (List.mem_cons_of_mem r hx) hty)
    unfold check_completion_rules
    cases hty : r.rule_type with
    | specific_approver =>
      rw [specific_not_satisfied r approvals h]
      simpa using ih'
    | percentage =>
      rcases hperc r (List.mem_cons_self r rest) hty with ⟨p, hp, hpos⟩
      rw [percentage_not_satisfied_pending r approvals p hp hpos h]
      exact ih'
    | hybrid =>
      rw [hybrid_specific_not_approved r approvals h,
        hybrid_percentage_not_approved r approvals (hhyb r (List.mem_cons_self r rest) hty) h]
      simpa using ih'

/-! Totality of the completion check when every applicable Percentage rule
has a set `percentage_required`. -/

theorem percentage_satisfied_isSome (r : ApprovalRule) (approvals : List Approval)
    (h : r.percentage_required ≠ none) :
    percentage_satisfied r approvals ≠ none := by
  unfold percentage_satisfied
  by_cases he : (matching_rule_approvals r approvals).isEmpty
  · simp [he]
  · cases hpr : r.percentage_required with
    | none => exact absurd hpr h
    | some p => simp [he, hpr]

theorem check_rules_isSome (rs : List ApprovalRule) (approvals : List Approval)
    (h : ∀ r ∈ rs, r.rule_type = ApprovalRuleType.percentage →
        r.percentage_required ≠ none) :
    check_completion_rules rs approvals ≠ none := by
  induction rs with
  | nil => simp [check_completion_rules]
  | cons r rest ih =>
    have ih' := ih (fun x hx hty => h x (List.mem_cons_of_mem r hx) hty)
    unfold check_completion_rules
    cases hty : r.rule_type with
    | specific_approver =>
      by_cases hs : specific_approver_satisfied r approvals
      · simp [hs]
      · simpa [hs] using ih'
    | percentage =>
      have hns := percentage_satisfied_isSome r approvals
        (h r (List.mem_cons_self r rest) hty)
      cases hps : percentage_satisfied r approvals with
      | none => exact absurd hps hns
      | some b => cases b <;> simp [hps, ih']
    | hybrid =>
      by_cases hs : hybrid_specific_approved r approvals || hybrid_percentage_approved r approvals
      · simp [hs]
      · simpa [hs] using ih'

theorem check_completion_isSome (rules : List ApprovalRule) (e : Expense)
    (approvals : List Approval)
    (h : ∀ r ∈ rules, r.rule_type = ApprovalRuleType.percentage →
        r.percentage_required ≠ none) :
    check_approval_completion rules e approvals ≠ none := by
  unfold check_approval_completion
  by_cases hr : (applicable_rules rules e).isEmpty
  · simp [hr]
  · simp only [hr, Bool.false_eq_true, if_false]
    exact check_rules_isSome _ _
      (fun x hx hty => h x (List.mem_of_mem_filter hx) hty)

/-! Helpers for reasoning about expense lookups under unique primary keys. -/

theorem expense_eq_of_mem_id (l : List Expense) (hnodup : (l.map Expense.id).Nodup)
    (e e' : Expense) (he : e ∈ l) (he' : e' ∈ l) (hid : e'.id = e.id) : e' = e :=
  List.inj_on_of_nodup_map hnodup he' he hid

theorem status_preserved_update (l : List Expense) (hnodup : (l.map Expense.id).Nodup)
    (e : Expense) (he : e ∈ l) (eid : Nat) (hne : eid ≠ e.id) (st : ExpenseStatus) :
    ∀ e' ∈ update_first (expense_query eid) (set_expense_status st) l,
      e'.id = e.id → e'.status = e.status := by
  intro e' he' hid
  rcases update_first_mem _ _ _ _ he' with h1 | ⟨y, hy, hq, rfl⟩
  · rw [expense_eq_of_mem_id l hnodup e e' he h1 hid]
  · have hyid : y.id = eid := by simpa [expense_query] using hq
    have : eid = e.id := by simpa [set_expense_status, hyid] using hid
    exact absurd this hne

/-- C1: the spec claims that workflow construction treats a Hybrid rule
like a Percentage rule, creating one Pending approval row per listed rule
approver.  Evaluating `create_approval_workflow` at a concrete applicable
Hybrid rule with one listed approver shows it creates no approval rows at
all, while the identical rule typed Percentage creates the expected row:
the `if`/`elif` chain of the construction loop has no HYBRID branch, so
the completion check's HYBRID branch can never find the rows it filters
for.  This theorem documents the faulty behaviour at the failing input. -/
theorem C1_hybrid_construction_creates_nothing :
    rule_applies hybrid_rule_c1 expense_c1 = true ∧
    create_approval_workflow [hybrid_rule_c1] [] expense_c1 1 = [] ∧
    create_approval_workflow [percentage_twin_c1] [] expense_c1 1 =
      [pending_approval 1 1 (some 7) 1] :=
  ⟨by decide, by decide, by decide⟩

/-- C2 counterexample: an Approved (terminal) expense that still has one
Pending approval row.  A late reject on that row flips the expense from
Approved to Rejected, so a terminal status is not immutable: the claim
that every subsequent `process_approval` call leaves a non-Pending
expense status unchanged is false. -/
theorem C2_counterexample_late_reject_flips_approved :
    expense_c2.status = ExpenseStatus.approved ∧
    (process_approval state_c2 1 9 "reject" none).map
        (fun r => r.2.expenses.map Expense.status) = some [ExpenseStatus.rejected] :=
  ⟨rfl, by decide⟩

/-- C2 (amended): a terminal expense's status is immutable provided that
additionally every approval row of that expense has itself been resolved;
`process_approval` reads no expense status, so the guarantee comes solely
from the Pending-row lookup failing or targeting a different expense. -/
theorem C2_amended_terminal_immutable_when_rows_resolved
    (s : DBState) (e : Expense) (he : e ∈ s.expenses)
    (hnodup : (s.expenses.map Expense.id).Nodup)
    (_hterm : e.status ≠ ExpenseStatus.pending)
    (hres : ∀ a ∈ s.approvals, a.expense_id = e.id → a.status ≠ ExpenseStatus.pending)
    (aid uid : Nat) (action : String) (c : Option String) (b : Bool) (s' : DBState)
    (hcall : process_approval s aid uid action c = some (b, s')) :
    ∀ e' ∈ s'.expenses, e'.id = e.id → e'.status = e.status := by
  unfold process_approval at hcall
  cases hfind : s.approvals.find? (approval_query aid uid) with
  | none =>
    simp only [hfind, Option.some.injEq, Prod.mk.injEq] at hcall
    obtain ⟨-, hs⟩ := hcall
    subst hs
    intro e' he' hid
    rw [expense_eq_of_mem_id s.expenses hnodup e e' he he' hid]
  | some a =>
    have haq := List.find?_some hfind
    have hamem := List.mem_of_find?_eq_some hfind
    have hap : a.status = ExpenseStatus.pending := ((approval_query_iff aid uid a).mp haq).2.2
    have hane : a.expense_id ≠ e.id := fun hcontra =>
      (hres a hamem hcontra) hap
    simp only [hfind] at hcall
    cases hexp : s.expenses.find? (expense_query a.expense_id) with
    | none =>
      simp only [hexp, Option.some.injEq, Prod.mk.injEq] at hcall
      obtain ⟨-, hs⟩ := hcall
      subst hs
      intro e' he' hid
      rw [expense_eq_of_mem_id s.expenses hnodup e e' he he' hid]
    | some ex =>
      simp only [hexp] at hcall
      by_cases hact : action == "reject"
      · simp only [hact, if_true, Option.some.injEq, Prod.mk.injEq] at hcall
        obtain ⟨-, hs⟩ := hcall
        subst hs
        exact status_preserved_update s.expenses hnodup e he a.expense_id hane
          ExpenseStatus.rejected
      · have hact' : (action == "reject") = false := by simpa using hact
        simp only [hact', Bool.false_eq_true, if_false] at hcall
        cases hchk : check_approval_completion s.rules ex
            ((update_first (approval_query aid uid) (resolve_approval action c)
              s.approvals).filter (fun x => x.expense_id == ex.id)) with
        | none =>
          simp only [hchk] at hcall
          exact Option.noConfusion hcall
        | some bc =>
          cases bc with
          | true =>
            simp only [hchk, Option.some.injEq, Prod.mk.injEq] at hcall
            obtain ⟨-, hs⟩ := hcall
            subst hs
            exact status_preserved_update s.expenses hnodup e he a.expense_id hane
              ExpenseStatus.approved
          | false =>
            simp only [hchk, Option.some.injEq, Prod.mk.injEq] at hcall
            obtain ⟨-, hs⟩ := hcall
            subst hs
            intro e' he' hid
            rw [expense_eq_of_mem_id s.expenses hnodup e e' he he' hid]

/-- C2 witness: the amended theorem applied to a concrete Approved expense
whose single approval row is already resolved; the late call fails and the
stored status is untouched. -/
theorem C2_amended_witness :
    expense_c2 ∈ state_c2w.expenses ∧
    expense_c2.status ≠ ExpenseStatus.pending ∧
    process_approval state_c2w 1 9 "approve" none = some (false, state_c2w) ∧
    ∀ e' ∈ state_c2w.expenses, e'.id = expense_c2.id → e'.status = expense_c2.status :=
  ⟨by decide, by decide, by decide,
    C2_amended_terminal_immutable_when_rows_resolved state_c2w expense_c2 (by decide)
      (by decide) (by decide) (by decide) 1 9 "approve" none false state_c2w (by decide)⟩

/-- C3 counterexample: an active Percentage rule of the expense's company
with `min_amount` unset and `max_amount = 100`; the spec says the unset
bound is unbounded, so the rule should apply to the amount 50, but the SQL
filter evaluates `NULL <= 50` to NULL and excludes the rule. -/
theorem C3_counterexample_unset_min_excludes_rule :
    rule_c3.is_active = true ∧
    rule_c3.min_amount = none ∧
    rule_c3.max_amount = some 100 ∧
    rule_c3.company_id = expense_c1.company_id ∧
    expense_c1.amount_in_company_currency ≤ 100 ∧
    rule_applies rule_c3 expense_c1 = false ∧
    applicable_rules [rule_c3] expense_c1 = [] :=
  ⟨rfl, rfl, rfl, rfl, by decide, by decide, by decide⟩

/-- C3 (amended): a rule with an unset `min_amount` or `max_amount` is
never selected, in workflow construction or in completion evaluation: both
use the same filter, and a NULL bound makes its comparison non-TRUE, so
the rule applies to no amount at all rather than being unbounded. -/
theorem C3_amended_unset_bound_never_applies (r : ApprovalRule) (e : Expense)
    (h : r.min_amount = none ∨ r.max_amount = none) :
    rule_applies r e = false ∧ ∀ rules : List ApprovalRule, r ∉ applicable_rules rules e := by
  have hra : rule_applies r e = false := by
    unfold rule_applies
    rcases h with h | h <;> rw [h] <;> simp
  refine ⟨hra, fun rules hr => ?_⟩
  have hmem := (List.mem_filter.mp hr).2
  rw [hra] at hmem
  exact absurd hmem (by simp)

/-- C3 witness: the amended theorem applied to the concrete rule with the
unset lower bound. -/
theorem C3_amended_witness :
    (rule_c3.min_amount = none ∨ rule_c3.max_amount = none) ∧
    rule_applies rule_c3 expense_c1 = false ∧
    rule_c3 ∉ applicable_rules [rule_c3] expense_c1 :=
  ⟨Or.inl rfl,
    (C3_amended_unset_bound_never_applies rule_c3 expense_c1 (Or.inl rfl)).1,
    (C3_amended_unset_bound_never_applies rule_c3 expense_c1 (Or.inl rfl)).2 [rule_c3]⟩

/-! Helpers for the processing theorems. -/

theorem approval_query_resolve_false (aid uid : Nat) (action : String) (c : Option String)
    (b : Approval) :
    approval_query aid uid (resolve_approval action c b) = false := by
  have h := resolved_status_ne_pending action
  simp [approval_query, resolve_approval, h]

theorem approval_query_id (aid uid : Nat) (x : Approval)
    (h : approval_query aid uid x = true) : x.id = aid :=
  ((approval_query_iff aid uid x).mp h).1

theorem process_fails_when_not_found (s : DBState) (aid uid : Nat) (action : String)
    (c : Option String) (hn : s.approvals.find? (approval_query aid uid) = none) :
    process_approval s aid uid action c = some (false, s) := by
  unfold process_approval
  simp only [hn]

theorem find?_query_update_none (aid uid : Nat) (action : String) (c : Option String)
    (l : List Approval) (hnodup : (l.map Approval.id).Nodup)
    (a : Approval) (hfind : l.find? (approval_query aid uid) = some a) :
    (update_first (approval_query aid uid) (resolve_approval action c) l).find?
      (approval_query aid uid) = none := by
  induction l with
  | nil => exact Option.noConfusion hfind
  | cons b rest ih =>
    rw [List.map_cons, List.nodup_cons] at hnodup
    obtain ⟨hbid, hrest⟩ := hnodup
    by_cases hb : approval_query aid uid b
    · have hbid' : b.id = aid := approval_query_id aid uid b hb
      simp only [update_first, hb, if_true]
      rw [List.find?_cons_of_neg _ (by simp [approval_query_resolve_false])]
      rw [List.find?_eq_none]
      intro x hx
      intro hqx
      have hxid : x.id = aid := approval_query_id aid uid x ((by simpa using hqx))
      exact hbid (by rw [hbid', ← hxid]; exact List.mem_map_of_mem Approval.id hx)
    · have hb' : (approval_query aid uid b) = false := by simpa using hb
      have hfind' : rest.find? (approval_query aid uid) = some a := by
        rw [List.find?_cons_of_neg _ (by simp [hb'])] at hfind
        exact hfind
      simp only [update_first, hb', Bool.false_eq_true, if_false]
      rw [List.find?_cons_of_neg _ (by simp [hb'])]
      exact ih hrest hfind'

/-- C4: a reject action on a Pending approval row owned by the actor makes
the expense Rejected immediately, whatever the statuses of the other
approval rows; every approval row other than the acted one is carried over
unchanged (in particular Pending rows stay Pending). -/
theorem C4_reject_immediately_rejects (s : DBState) (aid uid : Nat) (c : Option String)
    (a : Approval) (hfind : s.approvals.find? (approval_query aid uid) = some a)
    (e : Expense) (hexp : s.expenses.find? (expense_query a.expense_id) = some e) :
    ∃ s', process_approval s aid uid "reject" c = some (true, s') ∧
      s'.expenses.find? (expense_query a.expense_id) =
        some (set_expense_status ExpenseStatus.rejected e) ∧
      ∀ b ∈ s.approvals, approval_query aid uid b = false → b ∈ s'.approvals := by
  refine ⟨{ s with
      approvals := update_first (approval_query aid uid) (resolve_approval "reject" c)
        s.approvals
      expenses := update_first (expense_query a.expense_id)
        (set_expense_status ExpenseStatus.rejected) s.expenses }, ?_, ?_, ?_⟩
  · unfold process_approval
    simp only [hfind, hexp]
    rfl
  · have hpe : expense_query a.expense_id (set_expense_status ExpenseStatus.rejected e) = true := by
      have := List.find?_some hexp
      simpa [expense_query, set_expense_status] using this
    exact find?_update_first (expense_query a.expense_id)
      (set_expense_status ExpenseStatus.rejected) s.expenses e hexp hpe
  · intro b hb hq
    exact mem_update_first_of_not _ _ _ b hb hq

/-- C4 witness: rejecting the second-sequence approval row while the
first-sequence row is still Pending rejects the expense at once and leaves
the first row Pending. -/
theorem C4_witness :
    ∃ s', process_approval state_c4 2 8 "reject" none = some (true, s') ∧
      s'.expenses.find? (expense_query approval_c4b.expense_id) =
        some (set_expense_status ExpenseStatus.rejected expense_c4) ∧
      ∀ b ∈ state_c4.approvals, approval_query 2 8 b = false → b ∈ s'.approvals :=
  C4_reject_immediately_rejects state_c4 2 8 none approval_c4b (by decide)
    expense_c4 (by decide)

/-- C5: if no approval row matches the identified primary key, acting user
and Pending status (row missing, wrong approver, or already resolved), the
call returns False and leaves the state untouched; consequently, under
unique approval primary keys, a second call on an approval just resolved
by a successful call fails and leaves the post-call state unchanged. -/
theorem C5_failure_is_no_op (s : DBState) (aid uid : Nat) (action action2 : String)
    (c c2 : Option String) :
    ((∀ a ∈ s.approvals, approval_query aid uid a = false) →
      process_approval s aid uid action c = some (false, s)) ∧
    ((s.approvals.map Approval.id).Nodup →
      ∀ s', process_approval s aid uid action c = some (true, s') →
        process_approval s' aid uid action2 c2 = some (false, s')) := by
  constructor
  · intro h
    exact process_fails_when_not_found s aid uid action c
      (List.find?_eq_none.mpr (fun a ha => by simp [h a ha]))
  · intro hnodup s' hcall
    unfold process_approval at hcall
    cases hfind : s.approvals.find? (approval_query aid uid) with
    | none =>
      simp only [hfind, Option.some.injEq, Prod.mk.injEq] at hcall
      exact absurd hcall.1.symm (by simp)
    | some a =>
      simp only [hfind] at hcall
      have hupd := find?_query_update_none aid uid action c s.approvals hnodup a hfind
      cases hexp : s.expenses.find? (expense_query a.expense_id) with
      | none =>
        simp only [hexp, Option.some.injEq, Prod.mk.injEq] at hcall
        exact absurd hcall.1.symm (by simp)
      | some ex =>
        simp only [hexp] at hcall
        by_cases hact : action == "reject"
        · simp only [hact, if_true, Option.some.injEq, Prod.mk.injEq] at hcall
          obtain ⟨-, hs⟩ := hcall
          subst hs
          exact process_fails_when_not_found _ aid uid action2 c2 hupd
        · have hact' : (action == "reject") = false := by simpa using hact
          simp only [hact', Bool.false_eq_true, if_false] at hcall
          cases hchk : check_approval_completion s.rules ex
              ((update_first (approval_query aid uid) (resolve_approval action c)
                s.approvals).filter (fun x => x.expense_id == ex.id)) with
          | none =>
            simp only [hchk] at hcall
            exact Option.noConfusion hcall
          | some bc =>
            cases bc with
            | true =>
              simp only [hchk, Option.some.injEq, Prod.mk.injEq] at hcall
              obtain ⟨-, hs⟩ := hcall
              subst hs
              exact process_fails_when_not_found _ aid uid action2 c2 hupd
            | false =>
              simp only [hchk, Option.some.injEq, Prod.mk.injEq] at hcall
              obtain ⟨-, hs⟩ := hcall
              subst hs
              exact process_fails_when_not_found _ aid uid action2 c2 hupd

/-- C5 witness: on a state whose only approval row is already resolved the
call fails and changes nothing; and after a successful approve on a fresh
state, repeating the same call fails and leaves the post-call state as the
first call produced it. -/
theorem C5_witness :
    (∀ a ∈ state_c2w.approvals, approval_query 1 9 a = false) ∧
    process_approval state_c2w 1 9 "approve" none = some (false, state_c2w) ∧
    (state_c4.approvals.map Approval.id).Nodup ∧
    process_approval state_c4 1 9 "approve" none = some (true, state_c5post) ∧
    process_approval state_c5post 1 9 "approve" none = some (false, state_c5post) :=
  ⟨by decide,
    (C5_failure_is_no_op state_c2w 1 9 "approve" "approve" none none).1 (by decide),
    by decide,
    by decide,
    (C5_failure_is_no_op state_c4 1 9 "approve" "approve" none none).2 (by decide)
      state_c5post (by decide)⟩

/-- C6: for a Percentage rule with a set threshold and a non-empty matching
set, the code reports the rule satisfied exactly when the spec's formula
`approved_count / total_count * 100 >= percentage_required` holds; and
concretely, with threshold 60 and five listed approvers each having one
row, two approvals do not satisfy the rule while three do. -/
theorem C6_percentage_threshold (r : ApprovalRule) (approvals : List Approval) (p : ℚ)
    (hp : r.percentage_required = some p)
    (hne : matching_rule_approvals r approvals ≠ []) :
    (percentage_satisfied r approvals = some true ↔ spec_percentage_formula r approvals p) ∧
    percentage_satisfied rule_c6 approvals_c6_two = some false ∧
    percentage_satisfied rule_c6 approvals_c6_three = some true := by
  refine ⟨?_, ?_, ?_⟩
  · have hie : (matching_rule_approvals r approvals).isEmpty = false := by
      simpa [List.isEmpty_iff] using hne
    unfold percentage_satisfied
    simp [hie, hp, spec_percentage_formula, ge_iff_le]
  · simp +decide [percentage_satisfied, matching_rule_approvals, approved_count,
      rule_c6, approvals_c6_two, approval_row_c6]
    norm_num
  · simp +decide [percentage_satisfied, matching_rule_approvals, approved_count,
      rule_c6, approvals_c6_three, approval_row_c6]
    norm_num

/-- C6 witness: the threshold theorem applied at the concrete 60-percent
rule over its five approvers with three approvals taken. -/
theorem C6_witness :
    rule_c6.percentage_required = some 60 ∧
    matching_rule_approvals rule_c6 approvals_c6_three ≠ [] ∧
    ((percentage_satisfied rule_c6 approvals_c6_three = some true ↔
        spec_percentage_formula rule_c6 approvals_c6_three 60) ∧
      percentage_satisfied rule_c6 approvals_c6_two = some false ∧
      percentage_satisfied rule_c6 approvals_c6_three = some true) :=
  ⟨rfl, by decide,
    C6_percentage_threshold rule_c6 approvals_c6_three 60 rfl (by decide)⟩

/-- C7 counterexample: when no rule applies and the submitter has no
manager, construction creates zero approval rows and the immediate
completion evaluation returns complete (the all-Approved conjunction over
an empty list is vacuously true), contradicting the claim that the
round-trip always yields not complete. -/
theorem C7_counterexample_vacuous_complete :
    create_approval_workflow [] [user_c7] expense_c1 1 = [] ∧
    check_approval_completion [] expense_c1
      (create_approval_workflow [] [user_c7] expense_c1 1) = some true :=
  ⟨by decide, by decide⟩

/-- C7 (amended): building a workflow and immediately evaluating completion
with zero actions taken yields not complete, provided the construction
created at least one approval row or some rule applies, and every
applicable Percentage rule has a set positive threshold (an unset one
would raise, a zero one passes vacuously at 0 percent) and no applicable
Hybrid rule has a negative threshold. -/
theorem C7_amended_round_trip_not_complete (rules : List ApprovalRule) (users : List User)
    (e : Expense) (nid : Nat)
    (hperc : ∀ r ∈ applicable_rules rules e, r.rule_type = ApprovalRuleType.percentage →
        ∃ p, r.percentage_required = some p ∧ 0 < p)
    (hhyb : ∀ r ∈ applicable_rules rules e, r.rule_type = ApprovalRuleType.hybrid →
        ∀ p, r.percentage_required = some p → 0 ≤ p)
    (hne : create_approval_workflow rules users e nid ≠ [] ∨ applicable_rules rules e ≠ []) :
    check_approval_completion rules e (create_approval_workflow rules users e nid) =
      some false := by
  have hpend := create_workflow_status rules users e nid
  simp only [check_approval_completion]
  by_cases hr : (applicable_rules rules e).isEmpty
  · simp only [hr, if_true]
    rcases hne with hne | hne
    · cases hl : create_approval_workflow rules users e nid with
      | nil => exact absurd hl hne
      | cons x xs =>
        have hx : x.status = ExpenseStatus.pending := by
          apply hpend
          rw [hl]
          exact List.mem_cons_self x xs
        simp [List.all_cons, hx]
    · exact absurd (List.isEmpty_iff.mp hr) hne
  · simp only [hr, Bool.false_eq_true, if_false]
    exact check_rules_pending _ _ hpend hperc hhyb

/-- C7 witness: with one applicable Percentage rule (threshold 60, one
listed approver) the freshly built workflow evaluates to not complete. -/
theorem C7_amended_witness :
    create_approval_workflow [rule_c7] [] expense_c1 1 ≠ [] ∧
    check_approval_completion [rule_c7] expense_c1
      (create_approval_workflow [rule_c7] [] expense_c1 1) = some false :=
  ⟨by decide,
    C7_amended_round_trip_not_complete [rule_c7] [] expense_c1 1
      (by
        intro r hr hty
        have happ : applicable_rules [rule_c7] expense_c1 = [rule_c7] := by decide
        rw [happ] at hr
        rw [List.mem_singleton.mp hr]
        exact ⟨60, rfl, by norm_num⟩)
      (by
        intro r hr hty
        have happ : applicable_rules [rule_c7] expense_c1 = [rule_c7] := by decide
        rw [happ] at hr
        rw [List.mem_singleton.mp hr] at hty
        exact absurd hty (by decide))
      (Or.inl (by decide))⟩

/-- C8: when no approval row's approver appears among the rule's listed
approvers, the Percentage condition is total and negative: the branch
returns not-satisfied without ever dividing (the `if rule_approvals:`
guard), and the Hybrid percentage sub-condition likewise evaluates to
false. -/
theorem C8_empty_matching_not_satisfied (r : ApprovalRule) (approvals : List Approval)
    (h : ∀ a ∈ approvals,
      (r.rule_approvers.any fun ra => some ra.approver_id == a.approver_id) = false) :
    percentage_satisfied r approvals = some false ∧
    hybrid_percentage_approved r approvals = false := by
  have hm : matching_rule_approvals r approvals = [] := by
    unfold matching_rule_approvals
    rw [List.filter_eq_nil_iff]
    intro a ha
    simp [h a ha]
  constructor
  · unfold percentage_satisfied
    simp [hm]
  · unfold hybrid_percentage_approved
    cases r.percentage_required with
    | none => rfl
    | some p =>
      by_cases hz : p == 0
      · simp [hz]
      · simp [hz, hm]

/-- C8 witness: a rule listing only approver 21 evaluated over a single
approval row owned by approver 22. -/
theorem C8_witness :
    (∀ a ∈ approvals_c8,
      (rule_c8.rule_approvers.any fun ra => some ra.approver_id == a.approver_id) = false) ∧
    percentage_satisfied rule_c8 approvals_c8 = some false ∧
    hybrid_percentage_approved rule_c8 approvals_c8 = false :=
  ⟨by decide,
    (C8_empty_matching_not_satisfied rule_c8 approvals_c8 (by decide)).1,
    (C8_empty_matching_not_satisfied rule_c8 approvals_c8 (by decide)).2⟩

/-- C9: sequence numbers are not a gate: whenever the lookup finds a
Pending approval row owned by the acting user (and its expense exists, and
no applicable Percentage rule has an unset threshold, which would raise),
the call succeeds and resolves that row, regardless of every other row's
sequence number or status. -/
theorem C9_no_sequence_gating (s : DBState) (aid uid : Nat) (action : String)
    (c : Option String)
    (a : Approval) (hfind : s.approvals.find? (approval_query aid uid) = some a)
    (e : Expense) (hexp : s.expenses.find? (expense_query a.expense_id) = some e)
    (hsafe : ∀ r ∈ s.rules, r.rule_type = ApprovalRuleType.percentage →
        r.percentage_required ≠ none) :
    ∃ s', process_approval s aid uid action c = some (true, s') ∧
      resolve_approval action c a ∈ s'.approvals ∧
      (resolve_approval action c a).status ≠ ExpenseStatus.pending := by
  have hmem := resolved_mem_update_first (approval_query aid uid)
    (resolve_approval action c) s.approvals a hfind
  have hnp : (resolve_approval action c a).status ≠ ExpenseStatus.pending :=
    resolved_status_ne_pending action
  unfold process_approval
  simp only [hfind, hexp]
  by_cases hact : action == "reject"
  · simp only [hact, if_true]
    exact ⟨_, rfl, hmem, hnp⟩
  · have hact' : (action == "reject") = false := by simpa using hact
    simp only [hact', Bool.false_eq_true, if_false]
    cases hchk : check_approval_completion s.rules e
        ((update_first (approval_query aid uid) (resolve_approval action c)
          s.approvals).filter (fun x => x.expense_id == e.id)) with
    | none => exact absurd hchk (check_completion_isSome s.rules e _ hsafe)
    | some bc =>
      cases bc with
      | true => exact ⟨_, rfl, hmem, hnp⟩
      | false => exact ⟨_, rfl, hmem, hnp⟩

/-- C9 witness: the second-sequence Pending row is approved while the
first-sequence row of the same expense is still Pending. -/
theorem C9_witness :
    ∃ s', process_approval state_c4 2 8 "approve" none = some (true, s') ∧
      resolve_approval "approve" none approval_c4b ∈ s'.approvals ∧
      (resolve_approval "approve" none approval_c4b).status ≠ ExpenseStatus.pending :=
  C9_no_sequence_gating state_c4 2 8 "approve" none approval_c4b (by decide)
    expense_c4 (by decide) (by decide)

/-- C10: when no rule applies to the expense's amount and the construction
default path creates no approval row (the submitter has no manager), the
completion evaluation is vacuously true: the all-Approved conjunction over
the empty approval list holds. -/
theorem C10_vacuous_completion (rules : List ApprovalRule) (users : List User)
    (e : Expense) (nid : Nat) (h : applicable_rules rules e = [])
    (emp : User) (hemp : users.find? (fun u => u.id == e.employee_id) = some emp)
    (hmgr : emp.manager_id = none) :
    create_approval_workflow rules users e nid = [] ∧
    check_approval_completion rules e (create_approval_workflow rules users e nid) =
      some true := by
  have hcreate : create_approval_workflow rules users e nid = [] := by
    simp only [create_approval_workflow, h]
    simp [hemp, hmgr]
  refine ⟨hcreate, ?_⟩
  rw [hcreate]
  simp only [check_approval_completion, h]
  simp

/-- C10 witness: a rule window 100..200 does not apply to the amount 50,
and the submitter (user 2) has no manager; the empty workflow immediately
evaluates complete. -/
theorem C10_witness :
    applicable_rules [rule_c10] expense_c1 = [] ∧
    ([user_c7].find? (fun u => u.id == expense_c1.employee_id) = some user_c7) ∧
    user_c7.manager_id = none ∧
    (create_approval_workflow [rule_c10] [user_c7] expense_c1 1 = [] ∧
      check_approval_completion [rule_c10] expense_c1
        (create_approval_workflow [rule_c10] [user_c7] expense_c1 1) = some true) :=
  ⟨by decide, by decide, rfl,
    C10_vacuous_completion [rule_c10] [user_c7] expense_c1 1 (by decide)
      user_c7 (by decide) rfl⟩
